import Mathlib

/-
Shallow embedding of `src/day3-CNN.py`: a pedagogical CNN with a manual
2-D convolution (`MyConv2d`), a manual batch normalization (`MyBatchNorm2d`),
and the composite network `MyCNN` (conv → batch-norm → ReLU → 2×2 max-pool →
flatten → fully connected).

Tensors are modelled as total index functions into ℚ together with their
shape; torch floating-point arithmetic is modelled by exact rational
arithmetic, and `torch.sqrt` by an abstract function `sqrtFn : ℚ → ℚ`
(every theorem below holds for an arbitrary such function).
-/

namespace Day3CNN

/-- A 4-dimensional tensor `[batch, channel, height, width]` of rational
entries: the shape plus a total index function. -/
structure Tensor4 where
  batch : ℕ
  channels : ℕ
  height : ℕ
  width : ℕ
  data : ℕ → ℕ → ℕ → ℕ → ℚ

/-- State of a `MyConv2d` module: `weight` indexed `[oc][ic][di][dj]`,
`bias` indexed `[oc]`, kernel size, stride and padding.  `out_channels`
records `weight.shape[0]`. -/
structure MyConv2d where
  out_channels : ℕ
  weight : ℕ → ℕ → ℕ → ℕ → ℚ
  bias : ℕ → ℚ
  kernel_size : ℕ
  stride : ℕ
  padding : ℕ

/-- `MyConv2d.__init__`: the weight tensor is random (supplied here as an
argument), the bias is `torch.zeros(out_channels)`; kernel size, stride and
padding are stored.  In the source the defaults are `stride=2, padding=1`. -/
def MyConv2d.init (out_channels kernel_size stride padding : ℕ)
    (weight : ℕ → ℕ → ℕ → ℕ → ℚ) : MyConv2d :=
  { out_channels := out_channels
    weight := weight
    bias := fun _ => 0
    kernel_size := kernel_size
    stride := stride
    padding := padding }

/-- `out = (in + 2*p - k) // stride + 1` from `MyConv2d.forward`.  Natural
subtraction and division here agree with Python floor division whenever
`k ≤ in + 2*p` (the configurations the forward pass accepts). -/
def convOutDim (inDim k p s : ℕ) : ℕ := (inDim + 2 * p - k) / s + 1

/-- The padded buffer `x_padded`: zeros of spatial shape `(H+2p, W+2p)` with
the input copied into the centre (`x_padded[:, :, p:p+H, p:p+W] = x`). -/
def padArr (p H W : ℕ) (x : ℕ → ℕ → ℚ) (i j : ℕ) : ℚ :=
  if p ≤ i ∧ i < p + H ∧ p ≤ j ∧ j < p + W then x (i - p) (j - p) else 0

/-- The array the sliding window reads from: a freshly allocated padded
buffer when `self.padding > 0`, otherwise the raw input itself. -/
def MyConv2d.xPadded (c : MyConv2d) (H W : ℕ) (x : ℕ → ℕ → ℚ) : ℕ → ℕ → ℚ :=
  if 0 < c.padding then padArr c.padding H W x else x

/-- `torch.sum(region * self.weight[oc, ic])` where `region` is the `k×k`
slice of `xp` whose top-left corner is `(h0, w0)`. -/
def regionSum (k : ℕ) (xp : ℕ → ℕ → ℚ) (w : ℕ → ℕ → ℚ) (h0 w0 : ℕ) : ℚ :=
  ∑ di ∈ Finset.range k, ∑ dj ∈ Finset.range k, xp (h0 + di) (w0 + dj) * w di dj

/-- One entry `output[b, oc, i, j]` of the convolution: the `for ic` loop
accumulates `torch.sum(region * weight[oc, ic])` starting from the zero
initialization of `output`, and afterwards `output[b, oc] += self.bias[oc]`
adds the bias. -/
def MyConv2d.entry (c : MyConv2d) (inC H W : ℕ) (x : ℕ → ℕ → ℕ → ℚ)
    (oc i j : ℕ) : ℚ :=
  (List.range inC).foldl
    (fun acc ic =>
      acc + regionSum c.kernel_size (c.xPadded H W (x ic)) (c.weight oc ic)
        (i * c.stride) (j * c.stride)) 0
  + c.bias oc

/-- `MyConv2d.forward`: output shape `[batch, out_channels, out_H, out_W]`
with each entry given by the sliding-window accumulation. -/
def MyConv2d.forward (c : MyConv2d) (x : Tensor4) : Tensor4 :=
  { batch := x.batch
    channels := c.out_channels
    height := convOutDim x.height c.kernel_size c.padding c.stride
    width := convOutDim x.width c.kernel_size c.padding c.stride
    data := fun b oc i j => c.entry x.channels x.height x.width (x.data b) oc i j }

/-- The reference computation for the zero-padding fast path: identical to
`MyConv2d.entry` except that the padded buffer is always materialized, even
when `padding = 0`.  (This definition follows the spec's description of the
general padded computation; `MyConv2d.entry` is the code.) -/
def MyConv2d.entryAlwaysPadded (c : MyConv2d) (inC H W : ℕ) (x : ℕ → ℕ → ℕ → ℚ)
    (oc i j : ℕ) : ℚ :=
  (List.range inC).foldl
    (fun acc ic =>
      acc + regionSum c.kernel_size (padArr c.padding H W (x ic)) (c.weight oc ic)
        (i * c.stride) (j * c.stride)) 0
  + c.bias oc

/-- State of a `MyBatchNorm2d` module: `eps`, `momentum`, learnable `gamma`
and `beta`, and the `running_mean` / `running_var` buffers. -/
structure MyBatchNorm2d where
  eps : ℚ
  momentum : ℚ
  gamma : ℕ → ℚ
  beta : ℕ → ℚ
  running_mean : ℕ → ℚ
  running_var : ℕ → ℚ

/-- `MyBatchNorm2d.__init__`: `gamma = torch.ones`, `beta = torch.zeros`,
`running_mean = torch.zeros`, `running_var = torch.ones` (per-channel
vectors of length `num_features`, here total functions).  Source defaults:
`eps=1e-5, momentum=0.1`. -/
def MyBatchNorm2d.init (eps momentum : ℚ) : MyBatchNorm2d :=
  { eps := eps
    momentum := momentum
    gamma := fun _ => 1
    beta := fun _ => 0
    running_mean := fun _ => 0
    running_var := fun _ => 1 }

/-- `x.mean([0, 2, 3])`: per-channel mean over the batch, height and width
axes. -/
def batchMean (x : Tensor4) (c : ℕ) : ℚ :=
  (∑ b ∈ Finset.range x.batch, ∑ i ∈ Finset.range x.height,
      ∑ j ∈ Finset.range x.width, x.data b c i j)
    / (x.batch * x.height * x.width : ℚ)

/-- `x.var([0, 2, 3], unbiased=False)`: biased (population) per-channel
variance over the batch, height and width axes — mean squared deviation
from the batch mean, with no Bessel correction. -/
def batchVar (x : Tensor4) (c : ℕ) : ℚ :=
  (∑ b ∈ Finset.range x.batch, ∑ i ∈ Finset.range x.height,
      ∑ j ∈ Finset.range x.width, (x.data b c i j - batchMean x c) ^ 2)
    / (x.batch * x.height * x.width : ℚ)

/-- `MyBatchNorm2d.forward`.  In training mode the batch statistics are
computed and the running buffers updated by exponential moving average; in
evaluation mode the stored running statistics are used and the state is
untouched.  Returns the normalized output together with the module state
after the call.  `sqrtFn` abstracts `torch.sqrt`. -/
def MyBatchNorm2d.forward (sqrtFn : ℚ → ℚ) (bn : MyBatchNorm2d)
    (training : Bool) (x : Tensor4) : Tensor4 × MyBatchNorm2d :=
  let mean : ℕ → ℚ := if training then batchMean x else bn.running_mean
  let var : ℕ → ℚ := if training then batchVar x else bn.running_var
  let bn2 : MyBatchNorm2d :=
    if training then
      { bn with
        running_mean := fun c =>
          (1 - bn.momentum) * bn.running_mean c + bn.momentum * batchMean x c
        running_var := fun c =>
          (1 - bn.momentum) * bn.running_var c + bn.momentum * batchVar x c }
    else bn
  ({ x with
      data := fun b c i j =>
        bn.gamma c * ((x.data b c i j - mean c) / sqrtFn (var c + bn.eps))
          + bn.beta c },
   bn2)

/-- `F.relu` applied elementwise. -/
def reluT (x : Tensor4) : Tensor4 :=
  { x with data := fun b c i j => max 0 (x.data b c i j) }

/-- `nn.MaxPool2d(2)`: 2×2 windows with stride 2.  The spatial output size
`(H - 2)/2 + 1` agrees with torch for `H ≥ 2` (all uses here have `H = 14`). -/
def maxPool2 (x : Tensor4) : Tensor4 :=
  { x with
    height := (x.height - 2) / 2 + 1
    width := (x.width - 2) / 2 + 1
    data := fun b c i j =>
      max (max (x.data b c (2 * i) (2 * j)) (x.data b c (2 * i) (2 * j + 1)))
          (max (x.data b c (2 * i + 1) (2 * j))
               (x.data b c (2 * i + 1) (2 * j + 1))) }

/-- Per-image feature count of `x.view(x.size(0), -1)`. -/
def flatSize (x : Tensor4) : ℕ := x.channels * x.height * x.width

/-- The flattened view `x.view(x.size(0), -1)` as a `batch × feature`
index function (row-major over channel, height, width). -/
def flatten (x : Tensor4) (b n : ℕ) : ℚ :=
  x.data b (n / (x.height * x.width)) (n % (x.height * x.width) / x.width)
    (n % x.width)

/-- `nn.Linear(in_features, 10)` applied to a flattened batch: the matrix
multiply requires the per-image feature count to equal `in_features`;
otherwise the external library raises a shape-mismatch error, modelled as
`none`. -/
def linearForward (in_features : ℕ) (w : ℕ → ℕ → ℚ) (bias : ℕ → ℚ)
    (n : ℕ) (v : ℕ → ℕ → ℚ) : Option (ℕ → ℕ → ℚ) :=
  if n = in_features then
    some (fun b o => (∑ i ∈ Finset.range in_features, w o i * v b i) + bias o)
  else none

/-- State of the composite `MyCNN` module. -/
structure MyCNN where
  conv : MyConv2d
  bn : MyBatchNorm2d
  fc_in : ℕ
  fc_weight : ℕ → ℕ → ℚ
  fc_bias : ℕ → ℚ

/-- `MyCNN.__init__`: `MyConv2d(1, 8, 3)` (default `stride=2, padding=1`),
`MyBatchNorm2d(8)` (default `eps=1e-5, momentum=0.1`), `nn.Linear(8*7*7, 10)`
with randomly initialized weight and bias (supplied as arguments). -/
def MyCNN.init (convW : ℕ → ℕ → ℕ → ℕ → ℚ) (fcW : ℕ → ℕ → ℚ)
    (fcB : ℕ → ℚ) : MyCNN :=
  { conv := MyConv2d.init 8 3 2 1 convW
    bn := MyBatchNorm2d.init (1 / 100000) (1 / 10)
    fc_in := 8 * 7 * 7
    fc_weight := fcW
    fc_bias := fcB }

/-- `MyCNN.forward`: conv → batch-norm → ReLU → 2×2 max-pool → flatten →
fully connected.  Returns the logits (`none` on a flatten/fc shape
mismatch) together with the batch-norm state after the pass. -/
def MyCNN.forward (sqrtFn : ℚ → ℚ) (m : MyCNN) (training : Bool)
    (x : Tensor4) : Option (ℕ → ℕ → ℚ) × MyBatchNorm2d :=
  let x1 := m.conv.forward x
  let r := m.bn.forward sqrtFn training x1
  let x2 := reluT r.1
  let x3 := maxPool2 x2
  (linearForward m.fc_in m.fc_weight m.fc_bias (flatSize x3) (flatten x3), r.2)

/-! ### Helper lemmas -/

/-- The `for ic` accumulation loop is the sum over input channels. -/
lemma foldl_add_eq_sum (f : ℕ → ℚ) : ∀ (n : ℕ) (a : ℚ),
    (List.range n).foldl (fun acc ic => acc + f ic) a
      = a + ∑ ic ∈ Finset.range n, f ic := by
  intro n
  induction n with
  | zero => intro a; simp
  | succ m ih =>
    intro a
    rw [List.range_succ, List.foldl_append, ih]
    simp [Finset.sum_range_succ, add_assoc]

/-- Window indices stay inside the unpadded input when the kernel fits. -/
lemma windowIdx_lt (H k s i d : ℕ) (hk : k ≤ H) (hd : d < k)
    (hi : i < (H - k) / s + 1) : i * s + d < H := by
  have h1 : i ≤ (H - k) / s := Nat.lt_succ_iff.mp hi
  have h2 : i * s ≤ (H - k) / s * s := Nat.mul_le_mul_right s h1
  have h3 : (H - k) / s * s ≤ H - k := Nat.div_mul_le_self _ _
  omega

/-- Padding by zero is the identity on in-range indices. -/
lemma padArr_zero_eq (H W : ℕ) (f : ℕ → ℕ → ℚ) (a b : ℕ)
    (ha : a < H) (hb : b < W) : padArr 0 H W f a b = f a b := by
  unfold padArr
  rw [if_pos ⟨Nat.zero_le _, by omega, Nat.zero_le _, by omega⟩]
  simp

/-- On the indices the sliding window reads, the array `MyConv2d.forward`
actually indexes agrees with the zero-padded input, in both branches of the
padding test. -/
lemma xPadded_window_eq (c : MyConv2d) (H W : ℕ) (f : ℕ → ℕ → ℚ)
    (i j di dj : ℕ) (hdi : di < c.kernel_size) (hdj : dj < c.kernel_size)
    (hH : c.kernel_size ≤ H + 2 * c.padding)
    (hW : c.kernel_size ≤ W + 2 * c.padding)
    (hi : i < convOutDim H c.kernel_size c.padding c.stride)
    (hj : j < convOutDim W c.kernel_size c.padding c.stride) :
    c.xPadded H W f (i * c.stride + di) (j * c.stride + dj)
      = padArr c.padding H W f (i * c.stride + di) (j * c.stride + dj) := by
  unfold MyConv2d.xPadded
  by_cases hp : 0 < c.padding
  · rw [if_pos hp]
  · rw [if_neg hp]
    have hp0 : c.padding = 0 := by omega
    rw [hp0]
    have hH2 : c.kernel_size ≤ H := by omega
    have hW2 : c.kernel_size ≤ W := by omega
    have hiH : i * c.stride + di < H := by
      refine windowIdx_lt H c.kernel_size c.stride i di hH2 hdi ?_
      have := hi
      simp only [convOutDim, hp0] at this
      simpa using this
    have hjW : j * c.stride + dj < W := by
      refine windowIdx_lt W c.kernel_size c.stride j dj hW2 hdj ?_
      have := hj
      simp only [convOutDim, hp0] at this
      simpa using this
    rw [padArr_zero_eq H W f _ _ hiH hjW]

/-- Each convolution entry equals the triple sum over input channels and
kernel offsets of padded-input times weight, plus the bias. -/
lemma entry_eq_padded_sum (c : MyConv2d) (inC H W : ℕ) (x : ℕ → ℕ → ℕ → ℚ)
    (oc i j : ℕ)
    (hH : c.kernel_size ≤ H + 2 * c.padding)
    (hW : c.kernel_size ≤ W + 2 * c.padding)
    (hi : i < convOutDim H c.kernel_size c.padding c.stride)
    (hj : j < convOutDim W c.kernel_size c.padding c.stride) :
    c.entry inC H W x oc i j
      = (∑ ic ∈ Finset.range inC, ∑ di ∈ Finset.range c.kernel_size,
          ∑ dj ∈ Finset.range c.kernel_size,
            padArr c.padding H W (x ic) (i * c.stride + di) (j * c.stride + dj)
              * c.weight oc ic di dj)
        + c.bias oc := by
  unfold MyConv2d.entry
  rw [foldl_add_eq_sum, zero_add]
  congr 1
  refine Finset.sum_congr rfl fun ic _ => ?_
  unfold regionSum
  refine Finset.sum_congr rfl fun di hdi => Finset.sum_congr rfl fun dj hdj => ?_
  rw [xPadded_window_eq c H W (x ic) i j di dj (Finset.mem_range.mp hdi)
    (Finset.mem_range.mp hdj) hH hW hi hj]

/-- Natural-number output-size formula agrees with Python floor division. -/
lemma convOutDim_fdiv (H k p s : ℕ) (hk : k ≤ H + 2 * p) :
    (convOutDim H k p s : ℤ)
      = ((H : ℤ) + 2 * (p : ℤ) - (k : ℤ)).fdiv (s : ℤ) + 1 := by
  have h1 : ((H + 2 * p - k : ℕ) : ℤ) = (H : ℤ) + 2 * (p : ℤ) - (k : ℤ) := by omega
  unfold convOutDim
  rw [Nat.cast_add, Nat.cast_one, Int.natCast_div, h1,
    Int.fdiv_eq_ediv _ (by omega : (0 : ℤ) ≤ (s : ℤ))]

/-! ### Claim theorems -/

/-- C2: for every stride/padding/kernel configuration the forward pass
accepts (positive stride, kernel fitting in the padded input), the output
spatial dimensions are `out = ⌊(in + 2p - k)/stride⌋ + 1`, floor division
taken over the integers as in Python. -/
theorem conv_output_dims (c : MyConv2d) (x : Tensor4)
    (hs : 0 < c.stride)
    (hH : c.kernel_size ≤ x.height + 2 * c.padding)
    (hW : c.kernel_size ≤ x.width + 2 * c.padding) :
    ((c.forward x).height : ℤ)
        = ((x.height : ℤ) + 2 * (c.padding : ℤ) - (c.kernel_size : ℤ)).fdiv
            (c.stride : ℤ) + 1
    ∧ ((c.forward x).width : ℤ)
        = ((x.width : ℤ) + 2 * (c.padding : ℤ) - (c.kernel_size : ℤ)).fdiv
            (c.stride : ℤ) + 1 :=
  ⟨convOutDim_fdiv x.height c.kernel_size c.padding c.stride hH,
   convOutDim_fdiv x.width c.kernel_size c.padding c.stride hW⟩

/-- Concrete instance for `conv_output_dims`: the network configuration
(k = 3, s = 2, p = 1) on a 28×28 input gives 14×14. -/
def convW2 : MyConv2d := MyConv2d.init 8 3 2 1 fun _ _ _ _ => 0

/-- 28×28 single-channel all-zero input batch. -/
def inputW2 : Tensor4 := ⟨1, 1, 28, 28, fun _ _ _ _ => 0⟩

theorem conv_output_dims_witness :
    ((convW2.forward inputW2).height : ℤ) = 14
    ∧ ((convW2.forward inputW2).width : ℤ) = 14 :=
  ⟨((conv_output_dims convW2 inputW2 (by decide) (by decide) (by decide)).1).trans
      (by decide),
   ((conv_output_dims convW2 inputW2 (by decide) (by decide) (by decide)).2).trans
      (by decide)⟩

/-- C10: at construction, the convolution bias is all zeros, and batch-norm
gamma, beta, running mean and running variance are all ones, zeros, zeros
and ones respectively. -/
theorem init_state (oc k s p : ℕ) (w : ℕ → ℕ → ℕ → ℕ → ℚ) (e m : ℚ)
    (ch n : ℕ) :
    (MyConv2d.init oc k s p w).bias ch = 0
    ∧ (MyBatchNorm2d.init e m).gamma n = 1
    ∧ (MyBatchNorm2d.init e m).beta n = 0
    ∧ (MyBatchNorm2d.init e m).running_mean n = 0
    ∧ (MyBatchNorm2d.init e m).running_var n = 1 :=
  ⟨rfl, rfl, rfl, rfl, rfl⟩

/-- C3: in training mode, batch norm normalizes with the per-channel batch
mean and biased batch variance (taken over batch, height and width axes),
producing `gamma * (x - batch_mean)/sqrt(batch_var + eps) + beta` — the
batch statistics, not the running buffers. -/
theorem bn_training_batch_stats (sqrtFn : ℚ → ℚ) (bn : MyBatchNorm2d)
    (x : Tensor4) (b c i j : ℕ) :
    ((bn.forward sqrtFn true x).1).data b c i j
      = bn.gamma c * ((x.data b c i j - batchMean x c)
          / sqrtFn (batchVar x c + bn.eps)) + bn.beta c := rfl

/-- C4: one training-mode forward pass updates the running buffers by
exponential moving average with the stored momentum. -/
theorem bn_running_update (sqrtFn : ℚ → ℚ) (bn : MyBatchNorm2d)
    (x : Tensor4) (c : ℕ) :
    ((bn.forward sqrtFn true x).2).running_mean c
        = (1 - bn.momentum) * bn.running_mean c + bn.momentum * batchMean x c
    ∧ ((bn.forward sqrtFn true x).2).running_var c
        = (1 - bn.momentum) * bn.running_var c + bn.momentum * batchVar x c :=
  ⟨rfl, rfl⟩

/-- C5: in evaluation mode, batch norm normalizes with the stored running
statistics and the whole module state (running buffers, gamma, beta) is
returned unchanged. -/
theorem bn_eval_frame (sqrtFn : ℚ → ℚ) (bn : MyBatchNorm2d) (x : Tensor4)
    (b c i j : ℕ) :
    ((bn.forward sqrtFn false x).1).data b c i j
      = bn.gamma c * ((x.data b c i j - bn.running_mean c)
          / sqrtFn (bn.running_var c + bn.eps)) + bn.beta c
    ∧ (bn.forward sqrtFn false x).2 = bn :=
  ⟨rfl, rfl⟩

/-- C6: evaluation-mode batch norm is independent of batch composition: two
batches containing the same image (at positions `b1` and `b2`), run through
the same module state, give identical outputs for that image. -/
theorem bn_eval_batch_independent (sqrtFn : ℚ → ℚ) (bn : MyBatchNorm2d)
    (x1 x2 : Tensor4) (b1 b2 : ℕ)
    (himg : ∀ c i j, x1.data b1 c i j = x2.data b2 c i j) (c i j : ℕ) :
    ((bn.forward sqrtFn false x1).1).data b1 c i j
      = ((bn.forward sqrtFn false x2).1).data b2 c i j := by
  have h := himg c i j
  show bn.gamma c * ((x1.data b1 c i j - bn.running_mean c)
      / sqrtFn (bn.running_var c + bn.eps)) + bn.beta c
    = bn.gamma c * ((x2.data b2 c i j - bn.running_mean c)
      / sqrtFn (bn.running_var c + bn.eps)) + bn.beta c
  rw [h]

/-- Freshly initialized batch-norm state used by the C6 witness. -/
def bnW6 : MyBatchNorm2d := MyBatchNorm2d.init (1 / 100000) (1 / 10)

/-- A singleton batch holding the constant-7 image. -/
def xW6a : Tensor4 := ⟨1, 1, 1, 1, fun _ _ _ _ => 7⟩

/-- A two-image batch whose second image is the constant-7 image. -/
def xW6b : Tensor4 := ⟨2, 1, 1, 1, fun b _ _ _ => if b = 0 then 3 else 7⟩

theorem bn_eval_batch_independent_witness :
    ((bnW6.forward id false xW6a).1).data 0 0 0 0
      = ((bnW6.forward id false xW6b).1).data 1 0 0 0 :=
  bn_eval_batch_independent id bnW6 xW6a xW6b 0 1 (fun _ _ _ => rfl) 0 0 0

/-- C1: every entry of the convolution output is the sum over input
channels of the elementwise product between the k×k window of the
symmetrically zero-padded input starting at `(i*stride, j*stride)` and the
per-output-channel kernel, plus the per-output-channel bias. -/
theorem conv_forward_entry_spec (c : MyConv2d) (x : Tensor4) (b oc i j : ℕ)
    (hH : c.kernel_size ≤ x.height + 2 * c.padding)
    (hW : c.kernel_size ≤ x.width + 2 * c.padding)
    (hi : i < (c.forward x).height) (hj : j < (c.forward x).width) :
    (c.forward x).data b oc i j
      = (∑ ic ∈ Finset.range x.channels, ∑ di ∈ Finset.range c.kernel_size,
          ∑ dj ∈ Finset.range c.kernel_size,
            padArr c.padding x.height x.width (x.data b ic)
              (i * c.stride + di) (j * c.stride + dj) * c.weight oc ic di dj)
        + c.bias oc :=
  entry_eq_padded_sum c x.channels x.height x.width (x.data b) oc i j hH hW hi hj

/-- All-ones 2×2 kernel, bias 5, stride 1, padding 1, used by the C1
witness. -/
def convW1 : MyConv2d := ⟨1, fun _ _ _ _ => 1, fun _ => 5, 2, 1, 1⟩

/-- A 2×2 single-channel image with pixel `(i, j)` holding `i + j`. -/
def inputW1 : Tensor4 := ⟨1, 1, 2, 2, fun _ _ i j => (i + j : ℚ)⟩

theorem conv_forward_entry_spec_witness :
    (convW1.forward inputW1).data 0 0 0 0
      = (∑ ic ∈ Finset.range inputW1.channels,
          ∑ di ∈ Finset.range convW1.kernel_size,
          ∑ dj ∈ Finset.range convW1.kernel_size,
            padArr convW1.padding inputW1.height inputW1.width
              (inputW1.data 0 ic) (0 * convW1.stride + di)
              (0 * convW1.stride + dj) * convW1.weight 0 ic di dj)
        + convW1.bias 0 :=
  conv_forward_entry_spec convW1 inputW1 0 0 0 0 (by decide) (by decide)
    (by decide) (by decide)

/-- C9: with zero padding the forward pass indexes the raw input directly
(no padded buffer is built), and the result coincides with the general
always-padded computation at padding 0. -/
theorem conv_zero_padding_branch (c : MyConv2d) (x : Tensor4)
    (hp : c.padding = 0)
    (hH : c.kernel_size ≤ x.height) (hW : c.kernel_size ≤ x.width)
    (b oc i j : ℕ)
    (hi : i < (c.forward x).height) (hj : j < (c.forward x).width) :
    (∀ f : ℕ → ℕ → ℚ, c.xPadded x.height x.width f = f)
    ∧ (c.forward x).data b oc i j
        = c.entryAlwaysPadded x.channels x.height x.width (x.data b) oc i j := by
  constructor
  · intro f
    unfold MyConv2d.xPadded
    rw [if_neg (by omega)]
  · have hH2 : c.kernel_size ≤ x.height + 2 * c.padding := by omega
    have hW2 : c.kernel_size ≤ x.width + 2 * c.padding := by omega
    rw [show (c.forward x).data b oc i j
        = c.entry x.channels x.height x.width (x.data b) oc i j from rfl]
    rw [entry_eq_padded_sum c _ _ _ _ _ _ _ hH2 hW2 hi hj]
    unfold MyConv2d.entryAlwaysPadded
    rw [foldl_add_eq_sum, zero_add]
    rfl

/-- Constant-2 2×2 kernel with bias 1, stride 2 and no padding, used by the
C9 witness. -/
def convW9 : MyConv2d := ⟨1, fun _ _ _ _ => 2, fun _ => 1, 2, 2, 0⟩

/-- A 4×4 single-channel image with pixel `(i, j)` holding `4i + j`. -/
def inputW9 : Tensor4 := ⟨1, 1, 4, 4, fun _ _ i j => (i * 4 + j : ℚ)⟩

theorem conv_zero_padding_branch_witness :
    (∀ f : ℕ → ℕ → ℚ, convW9.xPadded inputW9.height inputW9.width f = f)
    ∧ (convW9.forward inputW9).data 0 0 1 1
        = convW9.entryAlwaysPadded inputW9.channels inputW9.height
            inputW9.width (inputW9.data 0) 0 1 1 :=
  conv_zero_padding_branch convW9 inputW9 rfl (by decide) (by decide) 0 0 1 1
    (by decide) (by decide)

/-- The fully-connected layer succeeds whenever the incoming feature count
matches its input width. -/
lemma linearForward_isSome (nf n : ℕ) (w : ℕ → ℕ → ℚ) (bias : ℕ → ℚ)
    (v : ℕ → ℕ → ℚ) (h : n = nf) :
    (linearForward nf w bias n v).isSome = true := by
  unfold linearForward
  rw [if_pos h]
  rfl

/-- C7: on any `[B, 1, 28, 28]` input, the conv → batch-norm → ReLU →
2×2-max-pool feature tensor flattens to exactly `8 * 7 * 7 = 392` features
per image, matching the fully-connected input width, so the shape-mismatch
failure of the fully-connected layer is unreachable. -/
theorem cnn_shape_invariant (sqrtFn : ℚ → ℚ) (convW : ℕ → ℕ → ℕ → ℕ → ℚ)
    (fcW : ℕ → ℕ → ℚ) (fcB : ℕ → ℚ) (training : Bool) (B : ℕ)
    (d : ℕ → ℕ → ℕ → ℕ → ℚ) :
    flatSize (maxPool2 (reluT
        (((MyCNN.init convW fcW fcB).bn.forward sqrtFn training
          ((MyCNN.init convW fcW fcB).conv.forward ⟨B, 1, 28, 28, d⟩)).1)))
      = (MyCNN.init convW fcW fcB).fc_in
    ∧ (MyCNN.init convW fcW fcB).fc_in = 8 * 7 * 7
    ∧ (MyCNN.forward sqrtFn (MyCNN.init convW fcW fcB) training
        ⟨B, 1, 28, 28, d⟩).1.isSome = true := by
  refine ⟨?_, rfl, ?_⟩
  · show 8 * ((convOutDim 28 3 1 2 - 2) / 2 + 1)
        * ((convOutDim 28 3 1 2 - 2) / 2 + 1) = 8 * 7 * 7
    rfl
  · simp only [MyCNN.forward]
    exact linearForward_isSome _ _ _ _ _ (by
      show 8 * ((convOutDim 28 3 1 2 - 2) / 2 + 1)
          * ((convOutDim 28 3 1 2 - 2) / 2 + 1) = 8 * 7 * 7
      rfl)

/-- A zero-bias convolution maps an all-zero input to an all-zero output. -/
lemma conv_forward_zero (c : MyConv2d) (hb : ∀ oc, c.bias oc = 0)
    (x : Tensor4) (hx : ∀ b ic i j, x.data b ic i j = 0) (b oc i j : ℕ) :
    (c.forward x).data b oc i j = 0 := by
  show c.entry x.channels x.height x.width (x.data b) oc i j = 0
  unfold MyConv2d.entry
  rw [foldl_add_eq_sum, zero_add, hb, add_zero]
  refine Finset.sum_eq_zero fun ic _ => ?_
  unfold regionSum
  refine Finset.sum_eq_zero fun di _ => Finset.sum_eq_zero fun dj _ => ?_
  have hz : c.xPadded x.height x.width (x.data b ic)
      (i * c.stride + di) (j * c.stride + dj) = 0 := by
    unfold MyConv2d.xPadded
    by_cases hp : 0 < c.padding
    · rw [if_pos hp]
      unfold padArr
      split
      · exact hx b ic _ _
      · rfl
    · rw [if_neg hp]
      exact hx b ic _ _
  rw [hz, zero_mul]

/-- A freshly initialized batch norm maps an all-zero input to an all-zero
output, in either mode and for any square-root function. -/
lemma bn_forward_zero (sqrtFn : ℚ → ℚ) (training : Bool) (x : Tensor4)
    (hx : ∀ b ch i j, x.data b ch i j = 0) (b ch i j : ℕ) :
    (((MyBatchNorm2d.init (1 / 100000) (1 / 10)).forward sqrtFn
      training x).1).data b ch i j = 0 := by
  cases training with
  | false =>
    show (1 : ℚ) * ((x.data b ch i j - 0) / sqrtFn (1 + 1 / 100000)) + 0 = 0
    rw [hx]
    simp
  | true =>
    have hm : batchMean x ch = 0 := by
      unfold batchMean
      simp [hx]
    show (1 : ℚ) * ((x.data b ch i j - batchMean x ch)
        / sqrtFn (batchVar x ch + 1 / 100000)) + 0 = 0
    rw [hx, hm]
    simp

/-- ReLU then 2×2 max-pooling of an all-zero tensor is all-zero. -/
lemma pool_relu_zero (x : Tensor4) (hx : ∀ b c i j, x.data b c i j = 0)
    (b c i j : ℕ) : (maxPool2 (reluT x)).data b c i j = 0 := by
  show max (max (max 0 (x.data b c (2 * i) (2 * j)))
        (max 0 (x.data b c (2 * i) (2 * j + 1))))
      (max (max 0 (x.data b c (2 * i + 1) (2 * j)))
        (max 0 (x.data b c (2 * i + 1) (2 * j + 1)))) = 0
  rw [hx, hx, hx, hx]
  simp

/-- The fully-connected layer on an all-zero feature vector returns the
bias alone. -/
lemma linear_on_zero (nf n : ℕ) (w : ℕ → ℕ → ℚ) (bias : ℕ → ℚ)
    (v : ℕ → ℕ → ℚ) (h : n = nf) (hv : ∀ b k, v b k = 0) :
    linearForward nf w bias n v = some fun _ o => bias o := by
  unfold linearForward
  rw [if_pos h]
  congr 1
  funext b o
  simp [hv]

/-- C8: a forward pass of a freshly constructed `MyCNN` on a batch of one
all-zero `[1, 1, 28, 28]` image yields a bias-only output: every weight
contribution vanishes and the logits equal the fully-connected bias terms
alone (in either mode, before any training step). -/
theorem cnn_zero_input_bias_only (sqrtFn : ℚ → ℚ) (convW : ℕ → ℕ → ℕ → ℕ → ℚ)
    (fcW : ℕ → ℕ → ℚ) (fcB : ℕ → ℚ) (training : Bool) :
    (MyCNN.forward sqrtFn (MyCNN.init convW fcW fcB) training
        ⟨1, 1, 28, 28, fun _ _ _ _ => 0⟩).1
      = some fun _ o => fcB o := by
  have hconv : ∀ b oc i j,
      ((MyConv2d.init 8 3 2 1 convW).forward
        ⟨1, 1, 28, 28, fun _ _ _ _ => 0⟩).data b oc i j = 0 :=
    fun b oc i j =>
      conv_forward_zero _ (fun _ => rfl) _ (fun _ _ _ _ => rfl) b oc i j
  have hbn : ∀ b ch i j,
      (((MyBatchNorm2d.init (1 / 100000) (1 / 10)).forward sqrtFn training
        ((MyConv2d.init 8 3 2 1 convW).forward
          ⟨1, 1, 28, 28, fun _ _ _ _ => 0⟩)).1).data b ch i j = 0 :=
    fun b ch i j => bn_forward_zero sqrtFn training _ hconv b ch i j
  simp only [MyCNN.forward, MyCNN.init]
  exact linear_on_zero _ _ _ _ _
    (by
      show 8 * ((convOutDim 28 3 1 2 - 2) / 2 + 1)
          * ((convOutDim 28 3 1 2 - 2) / 2 + 1) = 8 * 7 * 7
      rfl)
    (fun b n => pool_relu_zero _ hbn b _ _ _)

end Day3CNN
